import Mathlib

/-!
Verification of the token-stream definition-extraction engine of
`module_api.py`.

The lexical tokenizer (`tokenize.generate_tokens`) is an external
collaborator: the engine consumes its output.  We therefore embed the
engine as functions over a list of `TokenInfo` records, mirroring the
Python source line by line.  The renderer (`tokenize.untokenize` in
"full" 5-tuple mode, as in CPython 3.11) is embedded as well, since
`module_api` calls it on every extracted definition.

Streams: a Python generator positioned in the middle of the token
stream is modelled as the list of tokens not yet consumed.  `next(gen)`
on an exhausted stream raises `StopIteration`, modelled by
`PyError.stopIteration` (the spec calls this condition StreamExhausted).
-/

namespace ModuleApi

-- Token-type constants from CPython's `token` module (3.11 values).
namespace token

def ENDMARKER : Nat := 0

def NAME : Nat := 1

def NUMBER : Nat := 2

def STRING : Nat := 3

def NEWLINE : Nat := 4

def INDENT : Nat := 5

def DEDENT : Nat := 6

def LPAR : Nat := 7

def RPAR : Nat := 8

def COLON : Nat := 11

def EQUAL : Nat := 22

def LBRACE : Nat := 25

def RBRACE : Nat := 26

def RARROW : Nat := 51

def OP : Nat := 54

def COMMENT : Nat := 61

def NL : Nat := 62

end token

/-- One lexical token, as produced by `tokenize.generate_tokens`:
type, string, start and end (line, column) positions, the raw source
line, together with the derived `exact_type` (for `OP` tokens the
specific operator type, otherwise equal to `type`). -/
structure TokenInfo where
  type : Nat
  string : String
  start : Nat × Nat
  end_ : Nat × Nat
  line : String
  exact_type : Nat
deriving DecidableEq, Inhabited, Repr

/-- Exceptions the embedded code can raise. -/
inductive PyError where
  /-- `next()` on an exhausted stream; the spec's StreamExhausted. -/
  | stopIteration
  /-- `raise ValueError(msg)`. -/
  | valueError (msg : String)
  /-- `list.pop()` on an empty list. -/
  | indexError
deriving DecidableEq, Repr

/-- Enum of the different API definition variants (`DefType` in the
source). -/
inductive DefType where
  | PUBLIC
  | PRIVATE
  | ALL
deriving DecidableEq, BEq, Repr

/-- Net round-parenthesis contribution of one token: `+1` for `LPAR`,
`-1` for `RPAR`, `0` otherwise (exactly the updates performed by the
`while` loop of `_read_signature`). -/
def parenDelta (t : TokenInfo) : Int :=
  if t.exact_type == token.LPAR then 1
  else if t.exact_type == token.RPAR then -1
  else 0

/-- Running round-parenthesis depth accumulated over a token list. -/
def parenDepth : List TokenInfo → Int
  | [] => 0
  | t :: ts => parenDelta t + parenDepth ts

/-- The `while tok.exact_type != token.COLON or parens > 0` loop of
`_read_signature`: `tok` is the current token, `gen` the unconsumed
stream, `parens` the depth counter and `signature` the tokens collected
so far.  Returns the collected signature (terminating colon included)
and the stream positioned after the colon. -/
def signatureLoop (gen : List TokenInfo) (tok : TokenInfo) (parens : Int)
    (signature : List TokenInfo) :
    Except PyError (List TokenInfo × List TokenInfo) :=
  if tok.exact_type == token.COLON && decide (parens ≤ 0) then
    .ok (signature ++ [tok], gen)
  else
    match gen with
    | [] => .error .stopIteration
    | t :: gen' => signatureLoop gen' t (parens + parenDelta tok) (signature ++ [tok])

/-- The docstring look-ahead loop of `_read_signature`: starting with
`tok = next(gen)`, collect the run of `NEWLINE`/`INDENT`/`STRING`
tokens.  The first token outside the run is consumed by the final
`next(gen)` of the loop and never returned to the stream — the
function's result is the run and the stream positioned after that
dropped token. -/
def docstringLoop : List TokenInfo → Except PyError (List TokenInfo × List TokenInfo)
  | [] => .error .stopIteration
  | t :: gen =>
    if t.exact_type == token.NEWLINE || t.exact_type == token.INDENT
        || t.exact_type == token.STRING then
      match docstringLoop gen with
      | .error e => .error e
      | .ok (run, gen') => .ok (t :: run, gen')
    else
      .ok ([], gen)

/-- `_read_signature(gen, tok, include_docstring)`: read the tokens of
one definition header (and optionally an attached docstring) starting
at the keyword token `tok`, with `gen` the stream positioned just after
`tok`.  Returns the definition's tokens and the remaining stream. -/
def _read_signature (gen : List TokenInfo) (tok : TokenInfo)
    (include_docstring : Bool) :
    Except PyError (List TokenInfo × List TokenInfo) :=
  match signatureLoop gen tok 0 [] with
  | .error e => .error e
  | .ok (signature, gen1) =>
    if include_docstring then
      match docstringLoop gen1 with
      | .error e => .error e
      | .ok (docstring, gen2) =>
        -- extend if there is a string among the whitespace
        -- immediately following the signature
        if docstring.any (fun t => t.exact_type == token.STRING) then
          .ok (signature ++ docstring, gen2)
        else
          .ok (signature, gen2)
    else
      .ok (signature, gen1)

/-- `_read_function(gen, tok, include_docstring)`. -/
def _read_function (gen : List TokenInfo) (tok : TokenInfo)
    (include_docstring : Bool) :
    Except PyError (List TokenInfo × List TokenInfo) :=
  _read_signature gen tok include_docstring

/-- `_read_class(gen, tok, include_docstring)`. -/
def _read_class (gen : List TokenInfo) (tok : TokenInfo)
    (include_docstring : Bool) :
    Except PyError (List TokenInfo × List TokenInfo) :=
  _read_signature gen tok include_docstring

/-- The scanner's keyword test: `tok.type == token.NAME and tok.string
== "def"` or the analogous `class` test. -/
def isKeywordTok (t : TokenInfo) : Bool :=
  t.type == token.NAME && (t.string == "def" || t.string == "class")

theorem signatureLoop_suffix_length :
    ∀ (gen : List TokenInfo) (tok : TokenInfo) (parens : Int)
      (signature sig gen' : List TokenInfo),
      signatureLoop gen tok parens signature = .ok (sig, gen') →
      gen'.length ≤ gen.length := by
  intro gen
  induction gen with
  | nil =>
    intro tok parens signature sig gen' h
    unfold signatureLoop at h
    cases hc : (tok.exact_type == token.COLON && decide (parens ≤ 0)) with
    | true => rw [hc] at h; simp at h; simp [← h.2]
    | false => rw [hc] at h; simp at h
  | cons t rest ih =>
    intro tok parens signature sig gen' h
    unfold signatureLoop at h
    cases hc : (tok.exact_type == token.COLON && decide (parens ≤ 0)) with
    | true => rw [hc] at h; simp at h; simp [← h.2]
    | false =>
      rw [hc] at h; simp at h
      have := ih t (parens + parenDelta tok) (signature ++ [tok]) sig gen' h
      simp
      omega

theorem docstringLoop_suffix_length :
    ∀ (gen run gen' : List TokenInfo),
      docstringLoop gen = .ok (run, gen') → gen'.length < gen.length := by
  intro gen
  induction gen with
  | nil =>
    intro run gen' h
    simp [docstringLoop] at h
  | cons t rest ih =>
    intro run gen' h
    unfold docstringLoop at h
    cases hc : (t.exact_type == token.NEWLINE || t.exact_type == token.INDENT
        || t.exact_type == token.STRING) with
    | true =>
      rw [hc] at h; simp at h
      match hrec : docstringLoop rest with
      | .error e => rw [hrec] at h; simp at h
      | .ok (run₀, gen₀) =>
        rw [hrec] at h
        simp at h
        have := ih run₀ gen₀ hrec
        simp [← h.2]
        omega
    | false =>
      rw [hc] at h; simp at h
      simp [← h.2]

theorem _read_signature_suffix_length
    {gen : List TokenInfo} {tok : TokenInfo} {b : Bool}
    {d gen' : List TokenInfo}
    (h : _read_signature gen tok b = .ok (d, gen')) :
    gen'.length ≤ gen.length := by
  unfold _read_signature at h
  match h1 : signatureLoop gen tok 0 [] with
  | .error e => rw [h1] at h; simp at h
  | .ok (sig, gen1) =>
    rw [h1] at h
    have hlen1 := signatureLoop_suffix_length gen tok 0 [] sig gen1 h1
    cases b with
    | false =>
      simp at h
      rw [← h.2]
      exact hlen1
    | true =>
      simp at h
      match h2 : docstringLoop gen1 with
      | .error e => rw [h2] at h; simp at h
      | .ok (run, gen2) =>
        rw [h2] at h
        have hlen2 := docstringLoop_suffix_length gen1 run gen2 h2
        simp at h
        split at h <;> (simp at h; rw [← h.2]; omega)

/-- `find_definitions(source_s, include_docstring)`: walk the token
stream; at every `NAME` token spelled `def` (resp. `class`) delegate to
`_read_function` (resp. `_read_class`), which consumes the definition's
tokens from the shared stream.  The tokenizer itself is external, so
the model takes its output `toks` as input.  The Python generator
yields definitions lazily and re-raises any reader failure; the model
returns either the full list of definitions or the first error. -/
def find_definitions (toks : List TokenInfo) (include_docstring : Bool) :
    Except PyError (List (List TokenInfo)) :=
  match toks with
  | [] => .ok []
  | tok :: gen =>
    if tok.type = token.NAME ∧ tok.string = "def" then
      match h2 : _read_function gen tok include_docstring with
      | .error e => .error e
      | .ok (d, gen') =>
        match find_definitions gen' include_docstring with
        | .error e => .error e
        | .ok ds => .ok (d :: ds)
    else if tok.type = token.NAME ∧ tok.string = "class" then
      match h3 : _read_class gen tok include_docstring with
      | .error e => .error e
      | .ok (d, gen') =>
        match find_definitions gen' include_docstring with
        | .error e => .error e
        | .ok ds => .ok (d :: ds)
    else
      find_definitions gen include_docstring
termination_by toks.length
decreasing_by
  · exact Nat.lt_succ_of_le (_read_signature_suffix_length h2)
  · exact Nat.lt_succ_of_le (_read_signature_suffix_length h3)
  · exact Nat.lt_succ_self _

/-- The `break` condition of `_find_signature_name`: `tok.exact_type ==
token.NAME and tok.string in ("def", "class")`. -/
def isSignatureKw (t : TokenInfo) : Bool :=
  t.exact_type == token.NAME && (t.string == "def" || t.string == "class")

/-- `_find_signature_name(tokens)`: scan for the first `NAME` token
spelled `def`/`class`; raise `ValueError` if none is found (the `for
... else` branch); otherwise return the next token of the iterator —
`next(_tokens)` raises `StopIteration` when the keyword was the last
token. -/
def _find_signature_name : List TokenInfo → Except PyError TokenInfo
  | [] => .error (.valueError "Unable to find signature name in token stream")
  | t :: rest =>
    if isSignatureKw t then
      match rest with
      | [] => .error .stopIteration
      | n :: _ => .ok n
    else
      _find_signature_name rest

/-- Python `s.startswith(p)`, over the character sequences of the two
strings. -/
def pyStartswith (s p : String) : Bool :=
  p.data.isPrefixOf s.data

/-- `filter_definitions(definitions, def_type)`: keep the definitions
whose name token matches the requested visibility.  The name is looked
up before the mode test, so a malformed definition fails in every
mode. -/
def filter_definitions (definitions : List (List TokenInfo))
    (def_type : DefType) : Except PyError (List (List TokenInfo)) :=
  match definitions with
  | [] => .ok []
  | defn :: rest =>
    match _find_signature_name defn with
    | .error e => .error e
    | .ok name_tok =>
      match filter_definitions rest def_type with
      | .error e => .error e
      | .ok out =>
        if def_type == DefType.ALL
            || (def_type == DefType.PUBLIC && !(pyStartswith name_tok.string "_"))
            || (def_type == DefType.PRIVATE && pyStartswith name_tok.string "_") then
          .ok (defn :: out)
        else
          .ok out

/-- Python string repetition `s * n`. -/
def strMul (s : String) (n : Nat) : String :=
  String.join (List.replicate n s)

/-- Python `str.lstrip("\\\n")`: drop every leading character that is a
backslash or a newline. -/
def pyLstrip (s : String) : String :=
  String.mk (s.data.dropWhile (fun c => c == '\\' || c == '\n'))

/-- State of CPython 3.11's `tokenize.Untokenizer`. -/
structure Untokenizer where
  tokens : List String
  prev_row : Nat
  prev_col : Nat

/-- `Untokenizer.add_whitespace(start)`: pad with `"\\\n"` for skipped
rows and spaces for skipped columns; raise `ValueError` if `start`
precedes the previous end position. -/
def add_whitespace (st : Untokenizer) (start : Nat × Nat) :
    Except PyError Untokenizer :=
  if start.1 < st.prev_row ∨ (start.1 = st.prev_row ∧ start.2 < st.prev_col) then
    .error (.valueError "start precedes previous end")
  else
    let row_offset := start.1 - st.prev_row
    let st1 :=
      if row_offset ≠ 0 then
        { st with tokens := st.tokens ++ [strMul "\\\n" row_offset], prev_col := 0 }
      else st
    let col_offset := start.2 - st1.prev_col
    let st2 :=
      if col_offset ≠ 0 then
        { st1 with tokens := st1.tokens ++ [strMul " " col_offset] }
      else st1
    .ok st2

/-- The main loop of `Untokenizer.untokenize` (CPython 3.11), for
5-tuple tokens from `generate_tokens` (no `ENCODING` tokens, so that
branch is omitted; the 2-tuple `compat` path cannot trigger).
`indents` is the stack of `INDENT` strings and `startline` the flag set
after a `NEWLINE`/`NL` token. -/
def untokLoop : List TokenInfo → Untokenizer → List String → Bool →
    Except PyError Untokenizer
  | [], st, _, _ => .ok st
  | t :: rest, st, indents, startline =>
    if t.type == token.ENDMARKER then
      .ok st
    else if t.type == token.INDENT then
      untokLoop rest st (indents ++ [t.string]) startline
    else if t.type == token.DEDENT then
      match indents with
      | [] => .error .indexError
      | _ :: _ =>
        untokLoop rest { st with prev_row := t.end_.1, prev_col := t.end_.2 }
          indents.dropLast startline
    else
      let stepped :=
        if t.type == token.NEWLINE || t.type == token.NL then
          (st, true)
        else if startline && !indents.isEmpty then
          let indent := indents.getLast!
          let st' :=
            if indent.length ≤ t.start.2 then
              { st with tokens := st.tokens ++ [indent], prev_col := indent.length }
            else st
          (st', false)
        else
          (st, startline)
      match add_whitespace stepped.1 t.start with
      | .error e => .error e
      | .ok st2 =>
        let st3 := { st2 with tokens := st2.tokens ++ [t.string],
                              prev_row := t.end_.1, prev_col := t.end_.2 }
        let st4 :=
          if t.type == token.NEWLINE || t.type == token.NL then
            { st3 with prev_row := st3.prev_row + 1, prev_col := 0 }
          else st3
        untokLoop rest st4 indents stepped.2

/-- `tokenize.untokenize(iterable)` in full (5-tuple) mode: run the
loop from a fresh `Untokenizer` and join the collected pieces. -/
def untokenize (ts : List TokenInfo) : Except PyError String :=
  match untokLoop ts ⟨[], 1, 0⟩ [] false with
  | .error e => .error e
  | .ok st => .ok (String.join st.tokens)

/-- The rendering comprehension of `module_api`:
`[untokenize(d).lstrip("\\\n") for d in filtered_defs]`. -/
def renderAll : List (List TokenInfo) → Except PyError (List String)
  | [] => .ok []
  | d :: ds =>
    match untokenize d with
    | .error e => .error e
    | .ok s =>
      match renderAll ds with
      | .error e => .error e
      | .ok ss => .ok (pyLstrip s :: ss)

/-- `module_api(source_s, def_type=..., include_docstring=...)`: the
whole pipeline on one file's token stream (tokenization of `source_s`
is the external collaborator, so the model starts from its output).
The Python generators interleave scanning, filtering and rendering;
the phases are sequenced here, which is observationally equal except
for which error is reported when several phases would fail. -/
def module_api (toks : List TokenInfo) (def_type : DefType)
    (include_docstring : Bool) : Except PyError (List String) :=
  match find_definitions toks include_docstring with
  | .error e => .error e
  | .ok defs =>
    match filter_definitions defs def_type with
    | .error e => .error e
    | .ok filtered_defs => renderAll filtered_defs

/-- Agreement of two tokens on everything the Untokenizer reads: type,
string and positions — but not the raw `line`. -/
def sameShape (a b : TokenInfo) : Prop :=
  a.type = b.type ∧ a.string = b.string ∧ a.start = b.start ∧ a.end_ = b.end_

/-- `hasName d` holds when `_find_signature_name` succeeds on `d`. -/
def hasName (d : List TokenInfo) : Bool :=
  match _find_signature_name d with
  | .ok _ => true
  | .error _ => false

/-- The retention test of `filter_definitions`, as a predicate on one
definition: false when the name lookup fails. -/
def passesFilter (def_type : DefType) (d : List TokenInfo) : Bool :=
  match _find_signature_name d with
  | .error _ => false
  | .ok name_tok =>
    def_type == DefType.ALL
      || (def_type == DefType.PUBLIC && !(pyStartswith name_tok.string "_"))
      || (def_type == DefType.PRIVATE && pyStartswith name_tok.string "_")

/-- Modelled from the spec (section 4.4, Renderer — this algorithm is
stated by the spec but does not appear in the source, which calls
`untokenize` instead): track the line number at which the previously
emitted line ended; for each token in order, when its ending line
number differs from the tracked one, append the token's full raw source
line and update the tracked number. -/
def renderLinesSpec (ts : List TokenInfo) : String :=
  (ts.foldl
    (fun acc t => if t.end_.1 ≠ acc.2 then (acc.1 ++ t.line, t.end_.1) else acc)
    ("", 0)).1

/-- Token stream of the source "class A:\n    def f():\n        pass\n" (a class with a method on its first body line). -/
def toksClassA : List TokenInfo := [
  ⟨1, "class", (1, 0), (1, 5), "class A:\n", 1⟩,
  ⟨1, "A", (1, 6), (1, 7), "class A:\n", 1⟩,
  ⟨54, ":", (1, 7), (1, 8), "class A:\n", 11⟩,
  ⟨4, "\n", (1, 8), (1, 9), "class A:\n", 4⟩,
  ⟨5, "    ", (2, 0), (2, 4), "    def f():\n", 5⟩,
  ⟨1, "def", (2, 4), (2, 7), "    def f():\n", 1⟩,
  ⟨1, "f", (2, 8), (2, 9), "    def f():\n", 1⟩,
  ⟨54, "(", (2, 9), (2, 10), "    def f():\n", 7⟩,
  ⟨54, ")", (2, 10), (2, 11), "    def f():\n", 8⟩,
  ⟨54, ":", (2, 11), (2, 12), "    def f():\n", 11⟩,
  ⟨4, "\n", (2, 12), (2, 13), "    def f():\n", 4⟩,
  ⟨5, "        ", (3, 0), (3, 8), "        pass\n", 5⟩,
  ⟨1, "pass", (3, 8), (3, 12), "        pass\n", 1⟩,
  ⟨4, "\n", (3, 12), (3, 13), "        pass\n", 4⟩,
  ⟨6, "", (4, 0), (4, 0), "", 6⟩,
  ⟨6, "", (4, 0), (4, 0), "", 6⟩,
  ⟨0, "", (4, 0), (4, 0), "", 0⟩
]

/-- Token stream of the source "def f():\n    x = 1\n" (a function whose body starts with an assignment). -/
def toksF : List TokenInfo := [
  ⟨1, "def", (1, 0), (1, 3), "def f():\n", 1⟩,
  ⟨1, "f", (1, 4), (1, 5), "def f():\n", 1⟩,
  ⟨54, "(", (1, 5), (1, 6), "def f():\n", 7⟩,
  ⟨54, ")", (1, 6), (1, 7), "def f():\n", 8⟩,
  ⟨54, ":", (1, 7), (1, 8), "def f():\n", 11⟩,
  ⟨4, "\n", (1, 8), (1, 9), "def f():\n", 4⟩,
  ⟨5, "    ", (2, 0), (2, 4), "    x = 1\n", 5⟩,
  ⟨1, "x", (2, 4), (2, 5), "    x = 1\n", 1⟩,
  ⟨54, "=", (2, 6), (2, 7), "    x = 1\n", 22⟩,
  ⟨2, "1", (2, 8), (2, 9), "    x = 1\n", 2⟩,
  ⟨4, "\n", (2, 9), (2, 10), "    x = 1\n", 4⟩,
  ⟨6, "", (3, 0), (3, 0), "", 6⟩,
  ⟨0, "", (3, 0), (3, 0), "", 0⟩
]

/-- Token stream of the source "def g():\n    return 1\n" (spec Scenario 4). -/
def toksG : List TokenInfo := [
  ⟨1, "def", (1, 0), (1, 3), "def g():\n", 1⟩,
  ⟨1, "g", (1, 4), (1, 5), "def g():\n", 1⟩,
  ⟨54, "(", (1, 5), (1, 6), "def g():\n", 7⟩,
  ⟨54, ")", (1, 6), (1, 7), "def g():\n", 8⟩,
  ⟨54, ":", (1, 7), (1, 8), "def g():\n", 11⟩,
  ⟨4, "\n", (1, 8), (1, 9), "def g():\n", 4⟩,
  ⟨5, "    ", (2, 0), (2, 4), "    return 1\n", 5⟩,
  ⟨1, "return", (2, 4), (2, 10), "    return 1\n", 1⟩,
  ⟨2, "1", (2, 11), (2, 12), "    return 1\n", 2⟩,
  ⟨4, "\n", (2, 12), (2, 13), "    return 1\n", 4⟩,
  ⟨6, "", (3, 0), (3, 0), "", 6⟩,
  ⟨0, "", (3, 0), (3, 0), "", 0⟩
]

/-- Token stream of the source "def f() -> {\"a\": 1}:\n    pass\n" (a dict literal in a return annotation). -/
def toksDict : List TokenInfo := [
  ⟨1, "def", (1, 0), (1, 3), "def f() -> \x7b\"a\": 1\x7d:\n", 1⟩,
  ⟨1, "f", (1, 4), (1, 5), "def f() -> \x7b\"a\": 1\x7d:\n", 1⟩,
  ⟨54, "(", (1, 5), (1, 6), "def f() -> \x7b\"a\": 1\x7d:\n", 7⟩,
  ⟨54, ")", (1, 6), (1, 7), "def f() -> \x7b\"a\": 1\x7d:\n", 8⟩,
  ⟨54, "->", (1, 8), (1, 10), "def f() -> \x7b\"a\": 1\x7d:\n", 51⟩,
  ⟨54, "\x7b", (1, 11), (1, 12), "def f() -> \x7b\"a\": 1\x7d:\n", 25⟩,
  ⟨3, "\"a\"", (1, 12), (1, 15), "def f() -> \x7b\"a\": 1\x7d:\n", 3⟩,
  ⟨54, ":", (1, 15), (1, 16), "def f() -> \x7b\"a\": 1\x7d:\n", 11⟩,
  ⟨2, "1", (1, 17), (1, 18), "def f() -> \x7b\"a\": 1\x7d:\n", 2⟩,
  ⟨54, "\x7d", (1, 18), (1, 19), "def f() -> \x7b\"a\": 1\x7d:\n", 26⟩,
  ⟨54, ":", (1, 19), (1, 20), "def f() -> \x7b\"a\": 1\x7d:\n", 11⟩,
  ⟨4, "\n", (1, 20), (1, 21), "def f() -> \x7b\"a\": 1\x7d:\n", 4⟩,
  ⟨5, "    ", (2, 0), (2, 4), "    pass\n", 5⟩,
  ⟨1, "pass", (2, 4), (2, 8), "    pass\n", 1⟩,
  ⟨4, "\n", (2, 8), (2, 9), "    pass\n", 4⟩,
  ⟨6, "", (3, 0), (3, 0), "", 6⟩,
  ⟨0, "", (3, 0), (3, 0), "", 0⟩
]

/-- Token stream of the source "def f(x: int) -> int:\n    pass\n" (an annotated parameter: a colon at depth 1). -/
def toksAnn : List TokenInfo := [
  ⟨1, "def", (1, 0), (1, 3), "def f(x: int) -> int:\n", 1⟩,
  ⟨1, "f", (1, 4), (1, 5), "def f(x: int) -> int:\n", 1⟩,
  ⟨54, "(", (1, 5), (1, 6), "def f(x: int) -> int:\n", 7⟩,
  ⟨1, "x", (1, 6), (1, 7), "def f(x: int) -> int:\n", 1⟩,
  ⟨54, ":", (1, 7), (1, 8), "def f(x: int) -> int:\n", 11⟩,
  ⟨1, "int", (1, 9), (1, 12), "def f(x: int) -> int:\n", 1⟩,
  ⟨54, ")", (1, 12), (1, 13), "def f(x: int) -> int:\n", 8⟩,
  ⟨54, "->", (1, 14), (1, 16), "def f(x: int) -> int:\n", 51⟩,
  ⟨1, "int", (1, 17), (1, 20), "def f(x: int) -> int:\n", 1⟩,
  ⟨54, ":", (1, 20), (1, 21), "def f(x: int) -> int:\n", 11⟩,
  ⟨4, "\n", (1, 21), (1, 22), "def f(x: int) -> int:\n", 4⟩,
  ⟨5, "    ", (2, 0), (2, 4), "    pass\n", 5⟩,
  ⟨1, "pass", (2, 4), (2, 8), "    pass\n", 1⟩,
  ⟨4, "\n", (2, 8), (2, 9), "    pass\n", 4⟩,
  ⟨6, "", (3, 0), (3, 0), "", 6⟩,
  ⟨0, "", (3, 0), (3, 0), "", 0⟩
]

/-- A `def` keyword token of a truncated stream `def f(`. -/
def tokDefKw : TokenInfo := ⟨1, "def", (1, 0), (1, 3), "def f(\n", 1⟩

/-- The name token following `tokDefKw`. -/
def tokFName : TokenInfo := ⟨1, "f", (1, 4), (1, 5), "def f(\n", 1⟩

/-- The opening parenthesis following `tokFName`; the stream ends after
it, before any depth-zero colon. -/
def tokLparOpen : TokenInfo := ⟨54, "(", (1, 5), (1, 6), "def f(\n", 7⟩

/-- A lone `NAME` token that is not a `def`/`class` keyword. -/
def tokNoKw : TokenInfo := ⟨1, "x", (1, 0), (1, 1), "x\n", 1⟩

/-- A malformed definition: a `def` keyword followed by an `OP` token,
so no `NAME` token follows the keyword. -/
def dBadDef : List TokenInfo :=
  [⟨1, "def", (1, 0), (1, 3), "def (:\n", 1⟩,
   ⟨54, "(", (1, 4), (1, 5), "def (:\n", 7⟩]

/-- A private definition header, `def _h():`. -/
def dPrivDef : List TokenInfo :=
  [⟨1, "def", (1, 0), (1, 3), "def _h():\n", 1⟩,
   ⟨1, "_h", (1, 4), (1, 6), "def _h():\n", 1⟩,
   ⟨54, "(", (1, 6), (1, 7), "def _h():\n", 7⟩,
   ⟨54, ")", (1, 7), (1, 8), "def _h():\n", 8⟩,
   ⟨54, ":", (1, 8), (1, 9), "def _h():\n", 11⟩]

/-- A two-definition list with one public and one private name. -/
def dsW : List (List TokenInfo) := [toksG.take 5, dPrivDef]

theorem find_definitions_nil (b : Bool) : find_definitions [] b = .ok [] := by
  unfold find_definitions
  rfl

theorem find_definitions_cons_not_kw (tok : TokenInfo) (gen : List TokenInfo)
    (b : Bool) (h : isKeywordTok tok = false) :
    find_definitions (tok :: gen) b = find_definitions gen b := by
  have hd : ¬(tok.type = token.NAME ∧ tok.string = "def") := by
    rintro ⟨ha, hb⟩; simp [isKeywordTok, ha, hb] at h
  have hc : ¬(tok.type = token.NAME ∧ tok.string = "class") := by
    rintro ⟨ha, hb⟩; simp [isKeywordTok, ha, hb] at h
  conv_lhs => unfold find_definitions
  rw [if_neg hd, if_neg hc]

theorem find_definitions_cons_kw_ok (tok : TokenInfo) (gen gen' : List TokenInfo)
    (d : List TokenInfo) (b : Bool) (hkw : isKeywordTok tok = true)
    (h2 : _read_signature gen tok b = .ok (d, gen')) :
    find_definitions (tok :: gen) b =
      Except.map (fun ds => d :: ds) (find_definitions gen' b) := by
  simp only [isKeywordTok, Bool.and_eq_true, Bool.or_eq_true, beq_iff_eq] at hkw
  obtain ⟨hname, hstr⟩ := hkw
  conv_lhs => unfold find_definitions
  by_cases hd : tok.string = "def"
  · rw [if_pos ⟨hname, hd⟩]
    split
    · next e heq =>
      have : _read_signature gen tok b = .error e := heq
      rw [h2] at this
      simp at this
    · next d' gen'' heq =>
      have heq' : _read_signature gen tok b = .ok (d', gen'') := heq
      rw [h2] at heq'
      simp at heq'
      obtain ⟨hdd, hgg⟩ := heq'
      subst hdd
      subst hgg
      cases hrec : find_definitions gen' b <;> simp [Except.map]
  · have hcl : tok.string = "class" := by
      rcases hstr with h | h
      · exact absurd h hd
      · exact h
    rw [if_neg (by rintro ⟨_, hb⟩; exact hd hb), if_pos ⟨hname, hcl⟩]
    split
    · next e heq =>
      have : _read_signature gen tok b = .error e := heq
      rw [h2] at this
      simp at this
    · next d' gen'' heq =>
      have heq' : _read_signature gen tok b = .ok (d', gen'') := heq
      rw [h2] at heq'
      simp at heq'
      obtain ⟨hdd, hgg⟩ := heq'
      subst hdd
      subst hgg
      cases hrec : find_definitions gen' b <;> simp [Except.map]

theorem find_definitions_cons_kw_err (tok : TokenInfo) (gen : List TokenInfo)
    (b : Bool) (e : PyError) (hkw : isKeywordTok tok = true)
    (h2 : _read_signature gen tok b = .error e) :
    find_definitions (tok :: gen) b = .error e := by
  simp only [isKeywordTok, Bool.and_eq_true, Bool.or_eq_true, beq_iff_eq] at hkw
  obtain ⟨hname, hstr⟩ := hkw
  conv_lhs => unfold find_definitions
  by_cases hd : tok.string = "def"
  · rw [if_pos ⟨hname, hd⟩]
    split
    · next e' heq =>
      have : _read_signature gen tok b = .error e' := heq
      rw [h2] at this
      simp at this
      rw [this]
    · next d' gen'' heq =>
      have heq' : _read_signature gen tok b = .ok (d', gen'') := heq
      rw [h2] at heq'
      simp at heq'
  · have hcl : tok.string = "class" := by
      rcases hstr with h | h
      · exact absurd h hd
      · exact h
    rw [if_neg (by rintro ⟨_, hb⟩; exact hd hb), if_pos ⟨hname, hcl⟩]
    split
    · next e' heq =>
      have : _read_signature gen tok b = .error e' := heq
      rw [h2] at this
      simp at this
      rw [this]
    · next d' gen'' heq =>
      have heq' : _read_signature gen tok b = .ok (d', gen'') := heq
      rw [h2] at heq'
      simp at heq'

theorem signatureLoop_split :
    ∀ (gen : List TokenInfo) (tok : TokenInfo) (parens : Int)
      (acc sig rest' : List TokenInfo),
      signatureLoop gen tok parens acc = .ok (sig, rest') →
      ∃ cs, sig = acc ++ tok :: cs ∧ gen = cs ++ rest' := by
  intro gen
  induction gen with
  | nil =>
    intro tok parens acc sig rest' h
    unfold signatureLoop at h
    cases hc : (tok.exact_type == token.COLON && decide (parens ≤ 0)) with
    | true =>
      rw [hc] at h; simp at h
      refine ⟨[], ?_, ?_⟩
      · rw [← h.1]
      · simp [← h.2]
    | false => rw [hc] at h; simp at h
  | cons t rest ih =>
    intro tok parens acc sig rest' h
    unfold signatureLoop at h
    cases hc : (tok.exact_type == token.COLON && decide (parens ≤ 0)) with
    | true =>
      rw [hc] at h; simp at h
      refine ⟨[], ?_, ?_⟩
      · rw [← h.1]
      · simp [← h.2]
    | false =>
      rw [hc] at h; simp at h
      obtain ⟨cs, h1, h2⟩ := ih t (parens + parenDelta tok) (acc ++ [tok]) sig rest' h
      refine ⟨t :: cs, ?_, ?_⟩
      · rw [h1]; simp
      · rw [h2]; simp

theorem signatureLoop_colon :
    ∀ (gen : List TokenInfo) (tok : TokenInfo) (parens : Int)
      (acc sig rest' : List TokenInfo),
      signatureLoop gen tok parens acc = .ok (sig, rest') →
      ∃ front c, sig = acc ++ front ++ [c] ∧ c.exact_type = token.COLON ∧
        parens + parenDepth front ≤ 0 ∧
        ∀ i (hi : i < front.length), (front.get ⟨i, hi⟩).exact_type = token.COLON →
          0 < parens + parenDepth (front.take i) := by
  intro gen
  induction gen with
  | nil =>
    intro tok parens acc sig rest' h
    unfold signatureLoop at h
    cases hc : (tok.exact_type == token.COLON && decide (parens ≤ 0)) with
    | true =>
      rw [hc] at h; simp at h
      simp only [Bool.and_eq_true, beq_iff_eq, decide_eq_true_eq] at hc
      refine ⟨[], tok, ?_, hc.1, ?_, ?_⟩
      · rw [← h.1]; simp
      · simpa [parenDepth] using hc.2
      · intro i hi
        simp at hi
    | false => rw [hc] at h; simp at h
  | cons t rest ih =>
    intro tok parens acc sig rest' h
    unfold signatureLoop at h
    cases hc : (tok.exact_type == token.COLON && decide (parens ≤ 0)) with
    | true =>
      rw [hc] at h; simp at h
      simp only [Bool.and_eq_true, beq_iff_eq, decide_eq_true_eq] at hc
      refine ⟨[], tok, ?_, hc.1, ?_, ?_⟩
      · rw [← h.1]; simp
      · simpa [parenDepth] using hc.2
      · intro i hi
        simp at hi
    | false =>
      rw [hc] at h; simp at h
      obtain ⟨front, c, h1, h2, h3, h4⟩ :=
        ih t (parens + parenDelta tok) (acc ++ [tok]) sig rest' h
      refine ⟨tok :: front, c, ?_, h2, ?_, ?_⟩
      · rw [h1]; simp
      · simp only [parenDepth]
        omega
      · intro i hi hcol
        match i with
        | 0 =>
          simp only [List.get] at hcol
          simp only [List.take_zero, parenDepth]
          simp only [Bool.and_eq_false_iff, beq_eq_false_iff_ne, decide_eq_false_iff_not] at hc
          rcases hc with hne | hgt
          · exact absurd hcol hne
          · omega
        | i + 1 =>
          simp only [List.length_cons] at hi
          have hi' : i < front.length := by omega
          have := h4 i hi' (by simpa using hcol)
          simp only [List.take_succ_cons, parenDepth]
          omega

theorem signatureLoop_error :
    ∀ (gen : List TokenInfo) (tok : TokenInfo) (parens : Int)
      (acc : List TokenInfo) (e : PyError),
      signatureLoop gen tok parens acc = .error e →
      e = .stopIteration ∧
      ∀ i (hi : i < (tok :: gen).length),
        ¬(((tok :: gen).get ⟨i, hi⟩).exact_type = token.COLON ∧
          parens + parenDepth ((tok :: gen).take i) ≤ 0) := by
  intro gen
  induction gen with
  | nil =>
    intro tok parens acc e h
    unfold signatureLoop at h
    cases hc : (tok.exact_type == token.COLON && decide (parens ≤ 0)) with
    | true => rw [hc] at h; simp at h
    | false =>
      rw [hc] at h; simp at h
      refine ⟨h.symm, ?_⟩
      intro i hi
      simp only [List.length_cons, List.length_nil] at hi
      match i with
      | 0 =>
        simp only [List.get, List.take_zero, parenDepth]
        simp only [Bool.and_eq_false_iff, beq_eq_false_iff_ne, decide_eq_false_iff_not] at hc
        rintro ⟨hcol, hle⟩
        rcases hc with hne | hgt
        · exact hne hcol
        · omega
  | cons t rest ih =>
    intro tok parens acc e h
    unfold signatureLoop at h
    cases hc : (tok.exact_type == token.COLON && decide (parens ≤ 0)) with
    | true => rw [hc] at h; simp at h
    | false =>
      rw [hc] at h
      simp only [Bool.false_eq_true, if_false] at h
      obtain ⟨he, hrest⟩ := ih t (parens + parenDelta tok) (acc ++ [tok]) e h
      refine ⟨he, ?_⟩
      intro i hi
      match i with
      | 0 =>
        simp only [List.get, List.take_zero, parenDepth]
        simp only [Bool.and_eq_false_iff, beq_eq_false_iff_ne, decide_eq_false_iff_not] at hc
        rintro ⟨hcol, hle⟩
        rcases hc with hne | hgt
        · exact hne hcol
        · omega
      | i + 1 =>
        simp only [List.length_cons] at hi
        have hi' : i < (t :: rest).length := by simpa using hi
        have := hrest i hi'
        rintro ⟨hcol, hle⟩
        refine this ⟨by simpa using hcol, ?_⟩
        simp only [List.take_succ_cons, parenDepth] at hle
        omega

theorem find_definitions_skip (pre rest : List TokenInfo) (b : Bool)
    (h : ∀ t ∈ pre, isKeywordTok t = false) :
    find_definitions (pre ++ rest) b = find_definitions rest b := by
  induction pre with
  | nil => rfl
  | cons t pre ih =>
    rw [List.cons_append,
      find_definitions_cons_not_kw t (pre ++ rest) b (h t (by simp))]
    exact ih (fun t ht => h t (by simp [ht]))

theorem find_definitions_no_kw (toks : List TokenInfo) (b : Bool)
    (h : ∀ t ∈ toks, isKeywordTok t = false) :
    find_definitions toks b = .ok [] := by
  have := find_definitions_skip toks [] b h
  rw [List.append_nil] at this
  rw [this]
  exact find_definitions_nil b

/-- With docstring capture off, `_read_signature` is exactly the header
loop. -/
theorem _read_signature_false_eq_loop
    {gen : List TokenInfo} {tok : TokenInfo} {d gen' : List TokenInfo}
    (hs : _read_signature gen tok false = .ok (d, gen')) :
    signatureLoop gen tok 0 [] = .ok (d, gen') := by
  unfold _read_signature at hs
  cases hsl0 : signatureLoop gen tok 0 [] with
  | error e => rw [hsl0] at hs; simp at hs
  | ok sg =>
    obtain ⟨sig, gen1⟩ := sg
    rw [hsl0] at hs
    simp at hs
    rw [hs.1, hs.2]

/-- Characterization of the scan with docstring capture off, by strong
induction on the stream length: one definition per keyword token, the
definitions' tokens form a sublist of the stream (so they appear in
source order), and every definition runs from its keyword to the first
colon the loop accepts. -/
theorem find_definitions_structure_false :
    ∀ (n : Nat) (toks : List TokenInfo) (ds : List (List TokenInfo)),
      toks.length ≤ n →
      find_definitions toks false = .ok ds →
      (∀ d ∈ ds, ∀ t ∈ d.tail, isKeywordTok t = false) →
      ds.length = (toks.filter isKeywordTok).length ∧
      ds.flatten.Sublist toks ∧
      ∀ d ∈ ds, d ≠ [] ∧ isKeywordTok d.head! = true ∧
        ∃ front c, d = front ++ [c] ∧ c.exact_type = token.COLON ∧
          parenDepth front ≤ 0 ∧
          ∀ i (hi : i < front.length),
            (front.get ⟨i, hi⟩).exact_type = token.COLON →
              0 < parenDepth (front.take i) := by
  intro n
  induction n with
  | zero =>
    intro toks ds hlen h hin
    have hnil : toks = [] := List.length_eq_zero.mp (Nat.le_zero.mp hlen)
    subst hnil
    rw [find_definitions_nil] at h
    simp at h
    subst h
    simp
  | succ n ih =>
    intro toks ds hlen h hin
    match toks with
    | [] =>
      rw [find_definitions_nil] at h
      simp at h
      subst h
      simp
    | tok :: gen =>
      by_cases hkw : isKeywordTok tok = true
      · cases hs : _read_signature gen tok false with
        | error e =>
          rw [find_definitions_cons_kw_err tok gen false e hkw hs] at h
          simp at h
        | ok dg =>
          obtain ⟨d, gen'⟩ := dg
          rw [find_definitions_cons_kw_ok tok gen gen' d false hkw hs] at h
          cases hrec : find_definitions gen' false with
          | error e => rw [hrec] at h; simp [Except.map] at h
          | ok ds' =>
            rw [hrec] at h
            simp [Except.map] at h
            subst h
            have hsl : signatureLoop gen tok 0 [] = .ok (d, gen') :=
              _read_signature_false_eq_loop hs
            obtain ⟨cs, hd, hgen⟩ := signatureLoop_split gen tok 0 [] d gen' hsl
            simp only [List.nil_append] at hd
            obtain ⟨front, c, hfc, hcol, hdep, hcols⟩ :=
              signatureLoop_colon gen tok 0 [] d gen' hsl
            simp only [List.nil_append] at hfc
            have hlen' : gen'.length ≤ n := by
              have hg := congrArg List.length hgen
              simp only [List.length_append] at hg
              simp only [List.length_cons] at hlen
              omega
            have hin' : ∀ d' ∈ ds', ∀ t ∈ d'.tail, isKeywordTok t = false :=
              fun d' hd' => hin d' (by simp [hd'])
            obtain ⟨hcount, hsub, hstruct⟩ := ih gen' ds' hlen' hrec hin'
            have hcs : ∀ t ∈ cs, isKeywordTok t = false := by
              intro t ht
              have htail := hin d (by simp)
              rw [hd] at htail
              exact htail t (by simpa using ht)
            have hcsf : cs.filter isKeywordTok = [] :=
              List.filter_eq_nil_iff.mpr (by intro t ht; simp [hcs t ht])
            refine ⟨?_, ?_, ?_⟩
            · rw [hgen]
              simp only [List.filter_cons, List.filter_append, hkw, hcsf,
                List.length_cons, if_true, List.nil_append, List.length_append]
              omega
            · rw [hgen, hd]
              simp only [List.flatten_cons, List.cons_append, List.append_assoc]
              exact List.Sublist.cons₂ tok (hsub.append_left cs)
            · intro d' hd'
              rcases (by simpa using hd' : d' = d ∨ d' ∈ ds') with hdd | hmem
              · subst hdd
                refine ⟨by rw [hd]; simp, by rw [hd]; simpa using hkw,
                  front, c, hfc, hcol, by omega, ?_⟩
                intro i hi hci
                have := hcols i hi hci
                omega
              · exact hstruct d' hmem
      · have hkwf : isKeywordTok tok = false := by
          cases hb : isKeywordTok tok
          · rfl
          · exact absurd hb hkw
        rw [find_definitions_cons_not_kw tok gen false hkwf] at h
        have hlen' : gen.length ≤ n := by
          simp only [List.length_cons] at hlen
          omega
        obtain ⟨hcount, hsub, hstruct⟩ := ih gen ds hlen' h hin
        refine ⟨?_, List.Sublist.cons tok hsub, hstruct⟩
        simp [List.filter_cons, hkwf, hcount]

theorem untokLoop_line_independent :
    ∀ {ts ts' : List TokenInfo}, List.Forall₂ sameShape ts ts' →
      ∀ (st : Untokenizer) (indents : List String) (startline : Bool),
        untokLoop ts st indents startline = untokLoop ts' st indents startline := by
  intro ts ts' h
  induction h with
  | nil => intro st indents startline; rfl
  | cons hab hrest ih =>
    intro st indents startline
    obtain ⟨h1, h2, h3, h4⟩ := hab
    simp only [untokLoop]
    rw [h1, h2, h3, h4]
    simp only [ih]

theorem filter_definitions_eval (ds : List (List TokenInfo)) (dt : DefType)
    (h : ∀ d ∈ ds, hasName d = true) :
    filter_definitions ds dt = .ok (ds.filter (passesFilter dt)) := by
  induction ds with
  | nil => rfl
  | cons d rest ih =>
    have hd := h d (by simp)
    unfold hasName at hd
    cases hn : _find_signature_name d with
    | error e => rw [hn] at hd; simp at hd
    | ok name_tok =>
      have hp : passesFilter dt d
          = (dt == DefType.ALL
              || (dt == DefType.PUBLIC && !(pyStartswith name_tok.string "_"))
              || (dt == DefType.PRIVATE && pyStartswith name_tok.string "_")) := by
        unfold passesFilter
        rw [hn]
      unfold filter_definitions
      rw [hn, ih (fun d' hd' => h d' (by simp [hd']))]
      simp only [List.filter_cons, hp]
      cases hcond : (dt == DefType.ALL
          || (dt == DefType.PUBLIC && !(pyStartswith name_tok.string "_"))
          || (dt == DefType.PRIVATE && pyStartswith name_tok.string "_")) with
      | true => simp
      | false => simp

theorem passes_partition (d : List TokenInfo) (h : hasName d = true) :
    passesFilter DefType.PUBLIC d = !(passesFilter DefType.PRIVATE d) := by
  unfold hasName at h
  cases hn : _find_signature_name d with
  | error e => rw [hn] at h; simp at h
  | ok name_tok =>
    unfold passesFilter
    rw [hn]
    cases hs : pyStartswith name_tok.string "_" <;> simp [hs] <;> decide

theorem filter_partition_length (ds : List (List TokenInfo))
    (h : ∀ d ∈ ds, hasName d = true) :
    (ds.filter (passesFilter DefType.PUBLIC)).length
      + (ds.filter (passesFilter DefType.PRIVATE)).length = ds.length := by
  induction ds with
  | nil => rfl
  | cons d rest ih =>
    have hp := passes_partition d (h d (by simp))
    have ihr := ih (fun d' hd' => h d' (by simp [hd']))
    simp only [List.filter_cons]
    cases hpriv : passesFilter DefType.PRIVATE d with
    | false =>
      rw [hpriv] at hp
      simp only [Bool.not_false] at hp
      simp [hp]
      omega
    | true =>
      rw [hpriv] at hp
      simp only [Bool.not_true] at hp
      simp [hp]
      omega

theorem find_definitions_toksG_true :
    find_definitions toksG true = .ok [toksG.take 5] := by
  show find_definitions
      (⟨1, "def", (1, 0), (1, 3), "def g():\n", 1⟩ :: toksG.drop 1) true = _
  rw [find_definitions_cons_kw_ok ⟨1, "def", (1, 0), (1, 3), "def g():\n", 1⟩
    (toksG.drop 1) (toksG.drop 8) (toksG.take 5) true (by decide) rfl]
  rw [find_definitions_no_kw (toksG.drop 8) true (by decide)]
  rfl

theorem module_api_toksG :
    module_api toksG DefType.PUBLIC true = .ok ["def g():"] := by
  unfold module_api
  rw [find_definitions_toksG_true]
  rfl

theorem find_definitions_toksClassA_true :
    find_definitions toksClassA true = .ok [toksClassA.take 3] := by
  show find_definitions
      (⟨1, "class", (1, 0), (1, 5), "class A:\n", 1⟩ :: toksClassA.drop 1) true = _
  rw [find_definitions_cons_kw_ok ⟨1, "class", (1, 0), (1, 5), "class A:\n", 1⟩
    (toksClassA.drop 1) (toksClassA.drop 6) (toksClassA.take 3) true (by decide) rfl]
  rw [find_definitions_no_kw (toksClassA.drop 6) true (by decide)]
  rfl

theorem module_api_toksClassA_all :
    module_api toksClassA DefType.ALL true = .ok ["class A:"] := by
  unfold module_api
  rw [find_definitions_toksClassA_true]
  rfl

theorem find_definitions_toksClassA_false :
    find_definitions toksClassA false
      = .ok [toksClassA.take 3, (toksClassA.drop 5).take 5] := by
  show find_definitions
      (⟨1, "class", (1, 0), (1, 5), "class A:\n", 1⟩ :: toksClassA.drop 1) false = _
  rw [find_definitions_cons_kw_ok ⟨1, "class", (1, 0), (1, 5), "class A:\n", 1⟩
    (toksClassA.drop 1) (toksClassA.drop 3) (toksClassA.take 3) false (by decide) rfl]
  rw [show toksClassA.drop 3
      = [⟨4, "\n", (1, 8), (1, 9), "class A:\n", 4⟩,
         ⟨5, "    ", (2, 0), (2, 4), "    def f():\n", 5⟩] ++ toksClassA.drop 5 from rfl]
  rw [find_definitions_skip
    [⟨4, "\n", (1, 8), (1, 9), "class A:\n", 4⟩,
     ⟨5, "    ", (2, 0), (2, 4), "    def f():\n", 5⟩] (toksClassA.drop 5) false (by decide)]
  rw [show toksClassA.drop 5
      = ⟨1, "def", (2, 4), (2, 7), "    def f():\n", 1⟩ :: toksClassA.drop 6 from rfl]
  rw [find_definitions_cons_kw_ok ⟨1, "def", (2, 4), (2, 7), "    def f():\n", 1⟩
    (toksClassA.drop 6) (toksClassA.drop 10) ((toksClassA.drop 5).take 5) false
    (by decide) rfl]
  rw [find_definitions_no_kw (toksClassA.drop 10) false (by decide)]
  rfl

/-- C1: the claim says All-mode extraction yields exactly one Definition
per `def`/`class` keyword token, nested ones included.  Counter-evidence
at the spec's own nested-construct example: the stream of
`class A:\n    def f():\n        pass\n` holds two keyword tokens, yet
extraction in All mode (docstring capture on, the default) returns a
single Definition — the docstring scan after `class A:` consumes and
discards the nested `def` keyword token. -/
theorem C1_theorem :
    module_api toksClassA DefType.ALL true = .ok ["class A:"] ∧
    (toksClassA.filter isKeywordTok).length = 2 :=
  ⟨module_api_toksClassA_all, by decide⟩

/-- C2: the claim says that when the post-colon run holds no string
literal the reader discards the run without advancing past any token
that is not part of the Definition.  In the code the loop's final
`next(gen)` has already consumed one such token, and it is never
returned: for `def f():\n    x = 1\n` the reader returns the header
`def f():` and a stream positioned at `=` — the `NAME` token `x` is in
neither the Definition nor the remaining stream, so the Scanner never
sees it. -/
theorem C2_theorem :
    _read_signature (toksF.drop 1) ⟨1, "def", (1, 0), (1, 3), "def f():\n", 1⟩ true
      = .ok (toksF.take 5, toksF.drop 8) ∧
    (⟨1, "x", (2, 4), (2, 5), "    x = 1\n", 1⟩ : TokenInfo) ∈ toksF.drop 1 ∧
    (⟨1, "x", (2, 4), (2, 5), "    x = 1\n", 1⟩ : TokenInfo) ∉ toksF.take 5 ∧
    (⟨1, "x", (2, 4), (2, 5), "    x = 1\n", 1⟩ : TokenInfo) ∉ toksF.drop 8 :=
  ⟨rfl, by decide, by decide, by decide⟩

/-- C3: the header loop tracks round-parenthesis depth, and a colon
token terminates the header exactly when the depth is zero at that
moment: whenever the loop succeeds on a stream whose collected
signature never reaches negative depth (true of every tokenizer-produced
header), the signature is some `front ++ [c]` with `c` a colon read at
depth zero, and every colon inside `front` was read at positive depth
and consumed as ordinary content. -/
theorem C3_theorem (gen : List TokenInfo) (tok : TokenInfo)
    (sig rest' : List TokenInfo)
    (h : signatureLoop gen tok 0 [] = .ok (sig, rest'))
    (hnn : ∀ i, i ≤ sig.length → 0 ≤ parenDepth (sig.take i)) :
    ∃ front c, sig = front ++ [c] ∧ c.exact_type = token.COLON ∧
      parenDepth front = 0 ∧
      ∀ i (hi : i < front.length), (front.get ⟨i, hi⟩).exact_type = token.COLON →
        0 < parenDepth (front.take i) := by
  obtain ⟨front, c, hfc, hcol, hdep, hcols⟩ :=
    signatureLoop_colon gen tok 0 [] sig rest' h
  simp only [List.nil_append] at hfc
  have h0 : 0 ≤ parenDepth front := by
    have hl := hnn front.length (by rw [hfc]; simp)
    rw [hfc, List.take_left] at hl
    exact hl
  refine ⟨front, c, hfc, hcol, by omega, ?_⟩
  intro i hi hci
  have := hcols i hi hci
  omega

/-- C3 witness: `def f(x: int) -> int:` — the annotation colon sits at
depth 1 and is consumed; the final colon at depth 0 terminates. -/
theorem C3_witness :
    signatureLoop (toksAnn.drop 1)
        ⟨1, "def", (1, 0), (1, 3), "def f(x: int) -> int:\n", 1⟩ 0 []
      = .ok (toksAnn.take 10, toksAnn.drop 10) ∧
    (∀ i, i ≤ (toksAnn.take 10).length →
        0 ≤ parenDepth ((toksAnn.take 10).take i)) ∧
    (∃ front c, toksAnn.take 10 = front ++ [c] ∧ c.exact_type = token.COLON ∧
      parenDepth front = 0 ∧
      ∀ i (hi : i < front.length), (front.get ⟨i, hi⟩).exact_type = token.COLON →
        0 < parenDepth (front.take i)) :=
  ⟨rfl, by decide,
    C3_theorem (toksAnn.drop 1)
      ⟨1, "def", (1, 0), (1, 3), "def f(x: int) -> int:\n", 1⟩
      (toksAnn.take 10) (toksAnn.drop 10) rfl (by decide)⟩

/-- C4: only round parentheses are tracked, so for
`def f() -> {"a": 1}:` the reader stops at the colon inside the braces
(the brace is still open: `{` is in the signature, `}` is not) and the
real header colon is left on the stream. -/
theorem C4_theorem :
    _read_signature (toksDict.drop 1)
        ⟨1, "def", (1, 0), (1, 3), "def f() -> \x7b\"a\": 1\x7d:\n", 1⟩ false
      = .ok (toksDict.take 8, toksDict.drop 8) ∧
    (toksDict.take 8).getLast?
      = some ⟨54, ":", (1, 15), (1, 16), "def f() -> \x7b\"a\": 1\x7d:\n", 11⟩ ∧
    (⟨54, "\x7b", (1, 11), (1, 12), "def f() -> \x7b\"a\": 1\x7d:\n", 25⟩ : TokenInfo)
      ∈ toksDict.take 8 ∧
    (⟨54, "\x7d", (1, 18), (1, 19), "def f() -> \x7b\"a\": 1\x7d:\n", 26⟩ : TokenInfo)
      ∉ toksDict.take 8 ∧
    (⟨54, ":", (1, 19), (1, 20), "def f() -> \x7b\"a\": 1\x7d:\n", 11⟩ : TokenInfo)
      ∈ toksDict.drop 8 :=
  ⟨rfl, rfl, by decide, by decide, by decide⟩

/-- C5 counterexample: for `def g():\n    return 1\n` with docstrings
on, the claim expects the rendered Definition `"def g():\n"`; the code
renders `"def g():"` (no trailing newline: the `NEWLINE` token went
into the discarded docstring run and `untokenize` emits token text
only). -/
theorem C5_counterexample :
    module_api toksG DefType.PUBLIC true ≠ .ok ["def g():\n"] := by
  rw [module_api_toksG]
  intro h
  injection h with h
  injection h with h1 h2
  exact absurd h1 (by decide)

/-- C5 amended: extraction on `def g():\n    return 1\n` (docstrings
on, Public mode retains `g`) returns exactly one rendered Definition,
the header through the colon with no trailing newline: `"def g():"`. -/
theorem C5_theorem :
    module_api toksG DefType.PUBLIC true = .ok ["def g():"] :=
  module_api_toksG

/-- C6 counterexample: the claim says the rendered output reproduces
every physical source line touched by the span.  For the header span of
`def g():\n    return 1\n` the touched-line concatenation (the spec's
own Renderer algorithm, `renderLinesSpec`) is `"def g():\n"`, but the
code renders `"def g():"`: text of touched lines outside the token span
(here the trailing newline) is not reproduced. -/
theorem C6_counterexample :
    renderAll [toksG.take 5] = .ok ["def g():"] ∧
    renderLinesSpec (toksG.take 5) = "def g():\n" ∧
    ("def g():" : String) ≠ "def g():\n" :=
  ⟨rfl, rfl, by decide⟩

/-- C6 amended: the code's rendering (`untokenize` plus the leading
escape strip) is computed from the span's token types, strings and
positions alone — two spans agreeing on those render identically no
matter what raw `line` text their tokens carry, so the renderer does
not reproduce source lines. -/
theorem C6_theorem (ts ts' : List TokenInfo)
    (h : List.Forall₂ sameShape ts ts') :
    Except.map pyLstrip (untokenize ts) = Except.map pyLstrip (untokenize ts') := by
  unfold untokenize
  rw [untokLoop_line_independent h]

/-- C6 witness: one token rendered identically under two different raw
lines. -/
theorem C6_witness :
    List.Forall₂ sameShape
      [⟨1, "x", (1, 0), (1, 1), "x = 1\n", 1⟩]
      [⟨1, "x", (1, 0), (1, 1), "a completely different raw line", 1⟩] ∧
    Except.map pyLstrip (untokenize [⟨1, "x", (1, 0), (1, 1), "x = 1\n", 1⟩])
      = Except.map pyLstrip
          (untokenize [⟨1, "x", (1, 0), (1, 1), "a completely different raw line", 1⟩]) :=
  ⟨List.Forall₂.cons ⟨rfl, rfl, rfl, rfl⟩ List.Forall₂.nil,
   C6_theorem _ _ (List.Forall₂.cons ⟨rfl, rfl, rfl, rfl⟩ List.Forall₂.nil)⟩

/-- C7: for any definition list on which the name lookup succeeds,
All mode returns the list unchanged, Public and Private modes return
the sublists selected by the leading-underscore test (order preserved,
being `List.filter` of the All list), the two tests are never both
true, every definition passes one of them, and the retained lengths add
up to the whole — Public and Private partition All. -/
theorem C7_theorem (ds : List (List TokenInfo))
    (h : ∀ d ∈ ds, hasName d = true) :
    filter_definitions ds DefType.ALL = .ok ds ∧
    filter_definitions ds DefType.PUBLIC
      = .ok (ds.filter (passesFilter DefType.PUBLIC)) ∧
    filter_definitions ds DefType.PRIVATE
      = .ok (ds.filter (passesFilter DefType.PRIVATE)) ∧
    (∀ d, ¬(passesFilter DefType.PUBLIC d = true ∧
            passesFilter DefType.PRIVATE d = true)) ∧
    (∀ d ∈ ds, passesFilter DefType.PUBLIC d = true ∨
        passesFilter DefType.PRIVATE d = true) ∧
    (ds.filter (passesFilter DefType.PUBLIC)).length
      + (ds.filter (passesFilter DefType.PRIVATE)).length = ds.length := by
  refine ⟨?_, filter_definitions_eval ds _ h, filter_definitions_eval ds _ h,
    ?_, ?_, filter_partition_length ds h⟩
  · rw [filter_definitions_eval ds _ h]
    congr 1
    apply List.filter_eq_self.mpr
    intro d hd
    have hnm := h d hd
    unfold hasName at hnm
    cases hn : _find_signature_name d with
    | error e => rw [hn] at hnm; simp at hnm
    | ok nt =>
      unfold passesFilter
      rw [hn]
      rfl
  · intro d
    rintro ⟨hpub, hpriv⟩
    cases hn : _find_signature_name d with
    | error e =>
      have hpf : passesFilter DefType.PUBLIC d = false := by
        unfold passesFilter
        rw [hn]
      rw [hpf] at hpub
      cases hpub
    | ok nt =>
      have hnm : hasName d = true := by
        unfold hasName
        rw [hn]
      have hpp := passes_partition d hnm
      rw [hpub, hpriv] at hpp
      simp at hpp
  · intro d hd
    have hpp := passes_partition d (h d hd)
    cases hpriv : passesFilter DefType.PRIVATE d with
    | true => exact Or.inr rfl
    | false =>
      rw [hpriv] at hpp
      simp only [Bool.not_false] at hpp
      exact Or.inl hpp

/-- C7 witness: a public `def g():` and a private `def _h():`. -/
theorem C7_witness :
    (∀ d ∈ dsW, hasName d = true) ∧
    (filter_definitions dsW DefType.ALL = .ok dsW ∧
     filter_definitions dsW DefType.PUBLIC
       = .ok (dsW.filter (passesFilter DefType.PUBLIC)) ∧
     filter_definitions dsW DefType.PRIVATE
       = .ok (dsW.filter (passesFilter DefType.PRIVATE)) ∧
     (∀ d, ¬(passesFilter DefType.PUBLIC d = true ∧
             passesFilter DefType.PRIVATE d = true)) ∧
     (∀ d ∈ dsW, passesFilter DefType.PUBLIC d = true ∨
         passesFilter DefType.PRIVATE d = true) ∧
     (dsW.filter (passesFilter DefType.PUBLIC)).length
       + (dsW.filter (passesFilter DefType.PRIVATE)).length = dsW.length) :=
  ⟨by decide, C7_theorem dsW (by decide)⟩

/-- C8: when the header loop fails, the failure is the stream-exhaustion
condition (`StopIteration`, the spec's StreamExhausted), and it can only
happen because no token of the remaining stream is a colon at
depth ≤ 0; the scanner propagates the reader's error unchanged, so a
failing signature yields `.error` — no definition list at all — rather
than a partial result. -/
theorem C8_theorem :
    (∀ (gen : List TokenInfo) (tok : TokenInfo) (parens : Int)
        (acc : List TokenInfo) (e : PyError),
        signatureLoop gen tok parens acc = .error e →
        e = .stopIteration ∧
        ∀ i (hi : i < (tok :: gen).length),
          ¬(((tok :: gen).get ⟨i, hi⟩).exact_type = token.COLON ∧
            parens + parenDepth ((tok :: gen).take i) ≤ 0)) ∧
    (∀ (gen : List TokenInfo) (tok : TokenInfo) (b : Bool) (e : PyError),
        isKeywordTok tok = true →
        _read_signature gen tok b = .error e →
        find_definitions (tok :: gen) b = .error e) :=
  ⟨signatureLoop_error,
   fun gen tok b e hkw hs => find_definitions_cons_kw_err tok gen b e hkw hs⟩

/-- C8 witness: the truncated stream `def f(` exhausts before any
depth-zero colon; the scan on it fails with the stream-exhaustion
error. -/
theorem C8_witness :
    find_definitions [tokDefKw, tokFName, tokLparOpen] true
      = .error PyError.stopIteration :=
  C8_theorem.2 [tokFName, tokLparOpen] tokDefKw true PyError.stopIteration
    (by decide) rfl

/-- C9 counterexample: the claim says the filter fails with
MalformedDefinition whenever no `NAME` token follows the keyword.  For
`[def, (]` no `NAME` token follows the keyword, yet the lookup returns
the `OP` token `(` and Public mode retains the definition without any
error. -/
theorem C9_counterexample :
    _find_signature_name dBadDef
      = .ok ⟨54, "(", (1, 4), (1, 5), "def (:\n", 7⟩ ∧
    (⟨54, "(", (1, 4), (1, 5), "def (:\n", 7⟩ : TokenInfo).exact_type
      ≠ token.NAME ∧
    filter_definitions [dBadDef] DefType.PUBLIC = .ok [dBadDef] :=
  ⟨rfl, by decide, rfl⟩

/-- C9 amended: `_find_signature_name` raises the MalformedDefinition
`ValueError` exactly when the sequence holds no `def`/`class` keyword
token at all; when the first keyword has a following token, that token
is returned as the name whatever its kind; a keyword that is the last
token fails with the stream-exhaustion error instead; and the filter
propagates whichever error the lookup raises. -/
theorem C9_theorem :
    (∀ d : List TokenInfo, (∀ t ∈ d, isSignatureKw t = false) →
        _find_signature_name d
          = .error (.valueError "Unable to find signature name in token stream")) ∧
    (∀ (pre post : List TokenInfo) (kw : TokenInfo),
        isSignatureKw kw = true →
        (∀ t ∈ pre, isSignatureKw t = false) →
        (post = [] →
            _find_signature_name (pre ++ kw :: post) = .error .stopIteration) ∧
        (∀ nt rest2, post = nt :: rest2 →
            _find_signature_name (pre ++ kw :: post) = .ok nt)) ∧
    (∀ (d : List TokenInfo) (ds : List (List TokenInfo)) (dt : DefType)
        (e : PyError),
        _find_signature_name d = .error e →
        filter_definitions (d :: ds) dt = .error e) := by
  refine ⟨?_, ?_, ?_⟩
  · intro d hd
    induction d with
    | nil => rfl
    | cons t rest ih =>
      unfold _find_signature_name
      rw [hd t (by simp)]
      simp only [Bool.false_eq_true, if_false]
      exact ih (fun t' ht' => hd t' (by simp [ht']))
  · intro pre post kw hkw hpre
    induction pre with
    | nil =>
      constructor
      · intro hpost
        subst hpost
        simp only [List.nil_append]
        unfold _find_signature_name
        rw [hkw]
        rfl
      · intro nt rest2 hpost
        subst hpost
        simp only [List.nil_append]
        unfold _find_signature_name
        rw [hkw]
        rfl
    | cons t pre ih =>
      have hskip : _find_signature_name ((t :: pre) ++ kw :: post)
          = _find_signature_name (pre ++ kw :: post) := by
        rw [List.cons_append]
        conv_lhs => unfold _find_signature_name
        rw [hpre t (by simp)]
        simp only [Bool.false_eq_true, if_false]
      obtain ⟨ih1, ih2⟩ := ih (fun t' ht' => hpre t' (by simp [ht']))
      constructor
      · intro hpost
        rw [hskip]
        exact ih1 hpost
      · intro nt rest2 hpost
        rw [hskip]
        exact ih2 nt rest2 hpost
  · intro d ds dt e he
    unfold filter_definitions
    rw [he]

/-- C9 witness: the three behaviors at concrete inputs — no keyword at
all, a keyword as last token, and a keyword with a successor; plus the
filter propagating the MalformedDefinition error. -/
theorem C9_witness :
    _find_signature_name [tokNoKw]
      = .error (.valueError "Unable to find signature name in token stream") ∧
    _find_signature_name [tokDefKw] = .error .stopIteration ∧
    _find_signature_name [tokDefKw, tokFName] = .ok tokFName ∧
    filter_definitions [[tokNoKw]] DefType.ALL
      = .error (.valueError "Unable to find signature name in token stream") :=
  ⟨C9_theorem.1 [tokNoKw] (by decide),
   (C9_theorem.2.1 [] [] tokDefKw (by decide) (by decide)).1 rfl,
   (C9_theorem.2.1 [] [tokFName] tokDefKw (by decide) (by decide)).2
     tokFName [] rfl,
   C9_theorem.2.2 [tokNoKw] [] DefType.ALL _
     (C9_theorem.1 [tokNoKw] (by decide))⟩

/-- C10: with docstring capture off, on any stream the scan accepts
(and whose definitions are keyword-free after their leading keyword and
never reach negative paren depth — true of every syntactically valid
source), the scan yields exactly one Definition per keyword token; the
definitions' tokens form a sublist of the stream, so they appear in
source order; and each Definition runs from its keyword token to its
depth-zero terminating colon, with every interior colon at positive
depth, and contains nothing beyond that colon. -/
theorem C10_theorem (toks : List TokenInfo) (ds : List (List TokenInfo))
    (h : find_definitions toks false = .ok ds)
    (hin : ∀ d ∈ ds, ∀ t ∈ d.tail, isKeywordTok t = false)
    (hnn : ∀ d ∈ ds, ∀ i, i ≤ d.length → 0 ≤ parenDepth (d.take i)) :
    ds.length = (toks.filter isKeywordTok).length ∧
    ds.flatten.Sublist toks ∧
    ∀ d ∈ ds, d ≠ [] ∧ isKeywordTok d.head! = true ∧
      ∃ front c, d = front ++ [c] ∧ c.exact_type = token.COLON ∧
        parenDepth front = 0 ∧
        ∀ i (hi : i < front.length),
          (front.get ⟨i, hi⟩).exact_type = token.COLON →
            0 < parenDepth (front.take i) := by
  obtain ⟨hc, hs, hstruct⟩ :=
    find_definitions_structure_false toks.length toks ds le_rfl h hin
  refine ⟨hc, hs, ?_⟩
  intro d hd
  obtain ⟨hne, hhead, front, c, hfc, hcol, hdep, hcols⟩ := hstruct d hd
  have h0 : 0 ≤ parenDepth front := by
    have hl := hnn d hd front.length (by rw [hfc]; simp)
    rw [hfc, List.take_left] at hl
    exact hl
  exact ⟨hne, hhead, front, c, hfc, hcol, by omega, hcols⟩

/-- C10 witness: `class A:\n    def f():\n        pass\n` with
docstring capture off — the nested `def` right after the class header is
detected, two Definitions for two keyword tokens. -/
theorem C10_witness :
    find_definitions toksClassA false
      = .ok [toksClassA.take 3, (toksClassA.drop 5).take 5] ∧
    ([toksClassA.take 3, (toksClassA.drop 5).take 5].length
        = (toksClassA.filter isKeywordTok).length ∧
      [toksClassA.take 3, (toksClassA.drop 5).take 5].flatten.Sublist toksClassA ∧
      ∀ d ∈ [toksClassA.take 3, (toksClassA.drop 5).take 5],
        d ≠ [] ∧ isKeywordTok d.head! = true ∧
        ∃ front c, d = front ++ [c] ∧ c.exact_type = token.COLON ∧
          parenDepth front = 0 ∧
          ∀ i (hi : i < front.length),
            (front.get ⟨i, hi⟩).exact_type = token.COLON →
              0 < parenDepth (front.take i)) :=
  ⟨find_definitions_toksClassA_false,
   C10_theorem toksClassA [toksClassA.take 3, (toksClassA.drop 5).take 5]
     find_definitions_toksClassA_false (by decide) (by decide)⟩

end ModuleApi
